import Mathlib

/-!
Shallow embedding of the NYC Parking Navigator core
(`src/backend/main.py`): the parking-rule text parser
(`ParkingRuleParser.parse_rule`, `parse_days`, `parse_time_range`,
`_parse_time_match`) and the availability evaluator
(`ParkingService.check_parking_availability`).

Strings are modelled as `List Char`; Python `str.upper`/`str.strip`
are modelled on ASCII; the concrete regular expressions of the source
are modelled by hand-rolled matchers with the same leftmost-match,
greedy-with-backtracking semantics on these fixed patterns; Python
`datetime.time` values are modelled as minutes after midnight
(`Nat`), whose order agrees with `time` comparison; floats appear
only as the literals 0.5 and 0.9 and are modelled as rationals.
-/

namespace ParkNav

/-- Whitespace recognised by Python `str.strip()` and by `\s` in the
source's regular expressions (ASCII range). -/
def isWs (c : Char) : Bool :=
  c = ' ' || c = '\t' || c = '\n' || c = '\r' ||
  c = Char.ofNat 11 || c = Char.ofNat 12

/-- ASCII upper-casing, as `str.upper()` acts on the ASCII range. -/
def up (c : Char) : Char := c.toUpper

/-- Python `str.strip()`: drop whitespace from both ends. -/
def trim (l : List Char) : List Char :=
  ((l.dropWhile isWs).reverse.dropWhile isWs).reverse

/-- Normalisation done by the parser: `text.upper().strip()`. -/
def normTxt (l : List Char) : List Char := trim (l.map up)

/-- Match the literal `pat` at the start of `t`; return the rest. -/
def litAt : List Char → List Char → Option (List Char)
  | [], t => some t
  | _ :: _, [] => none
  | p :: ps, c :: cs => if p = c then litAt ps cs else none

/-- Python `pat in text` substring test (for non-empty literals). -/
def containsLit (pat : List Char) : List Char → Bool
  | [] => (litAt pat []).isSome
  | t@(_ :: rest) => (litAt pat t).isSome || containsLit pat rest

/-- Try each literal alternative in order at the start of `t`
(regex alternation order), returning the remainder after the first
that matches. -/
def firstLitAt : List (List Char) → List Char → Option (List Char)
  | [], _ => none
  | p :: ps, t =>
    match litAt p t with
    | some r => some r
    | none => firstLitAt ps t

/-- Fuel-driven worker for `re.split` on an alternation of literals:
scan left to right, at each position trying the alternatives in
order; each match cuts the text. -/
def splitGo (pats : List (List Char)) : Nat → List Char → List Char → List (List Char)
  | _, acc, [] => [acc.reverse]
  | 0, acc, t => [acc.reverse ++ t]
  | fuel + 1, acc, t@(c :: rest) =>
    match firstLitAt pats t with
    | some r => acc.reverse :: splitGo pats fuel [] r
    | none => splitGo pats fuel (c :: acc) rest

/-- Model of `re.split(p1|p2|..., t)` for literal alternatives. -/
def splitPats (pats : List (List Char)) (t : List Char) : List (List Char) :=
  splitGo pats (t.length + 1) [] t

/-- Numeric value of a digit string, as Python `int`. -/
def natOfDigits (l : List Char) : Nat :=
  l.foldl (fun a c => 10 * a + (c.toNat - 48)) 0

/-! ## Day vocabulary (`ParkingRuleParser.days_map`, `day_pattern`) -/

/-- The `days_map` dictionary of the source, as an association list. -/
def daysMap : List (List Char × Nat) :=
  [("MON".data, 0), ("TUE".data, 1), ("WED".data, 2), ("THU".data, 3),
   ("FRI".data, 4), ("SAT".data, 5), ("SUN".data, 6),
   ("MONDAY".data, 0), ("TUESDAY".data, 1), ("WEDNESDAY".data, 2),
   ("THURSDAY".data, 3), ("FRIDAY".data, 4), ("SATURDAY".data, 5),
   ("SUNDAY".data, 6)]

/-- Dictionary lookup `days_map[k]` / `k in days_map`. -/
def dayIdx (k : List Char) : Option Nat := daysMap.lookup k

/-- Alternatives of `day_pattern`, in the regex's order (short names
first, so a full name is never reached at a position where its
three-letter form matches). -/
def dayAlts : List (List Char) :=
  ["MON".data, "TUE".data, "WED".data, "THU".data, "FRI".data,
   "SAT".data, "SUN".data, "MONDAY".data, "TUESDAY".data,
   "WEDNESDAY".data, "THURSDAY".data, "FRIDAY".data, "SATURDAY".data,
   "SUNDAY".data]

/-- Worker for `day_pattern.findall`: scan left to right, collecting
non-overlapping matches of the alternation and resuming after each
match. -/
def findDayGo : Nat → List Char → List (List Char)
  | 0, _ => []
  | _, [] => []
  | fuel + 1, t@(_ :: rest) =>
    match dayAlts.find? (fun p => (litAt p t).isSome) with
    | some p =>
      match litAt p t with
      | some r => p :: findDayGo fuel r
      | none => findDayGo fuel rest
    | none => findDayGo fuel rest

/-- `day_pattern.findall(t)`. -/
def findDays (t : List Char) : List (List Char) := findDayGo (t.length + 1) t

/-- Python `list(range(i, j + 1))`. -/
def rangeClosed (i j : Nat) : List Nat := (List.range (j + 1 - i)).map (· + i)

/-- Ordered duplicate-free insertion, used to model
`sorted(list(set(days)))`. -/
def insSorted (x : Nat) : List Nat → List Nat
  | [] => [x]
  | y :: ys => if x < y then x :: y :: ys else if x = y then y :: ys else y :: insSorted x ys

/-- Python `sorted(list(set(l)))` for a list of naturals. -/
def dedupSort (l : List Nat) : List Nat := l.foldr insSorted []

/-- Separator literals of the range branch (`THRU|THROUGH|-`). -/
def rangeSeps : List (List Char) := ["THRU".data, "THROUGH".data, "-".data]

/-- Separator literals of the list branch (`&|,|AND`). -/
def listSeps : List (List Char) := ["&".data, ",".data, "AND".data]

/-- The range strategy of `parse_days`: split on `THRU|THROUGH|-`;
only an exactly-two-part split with both trimmed parts in `days_map`
yields days, inclusive from start to end, wrapping the week when the
start index exceeds the end index. -/
def rangeStrat (d : List Char) : List Nat :=
  match splitPats rangeSeps d with
  | [p0, p1] =>
    match dayIdx (trim p0), dayIdx (trim p1) with
    | some i, some j =>
      if i ≤ j then rangeClosed i j
      else rangeClosed i 6 ++ rangeClosed 0 j
    | _, _ => []
  | _ => []

/-- The list strategy of `parse_days`: split on `&|,|AND` and keep
every trimmed part found in `days_map`. -/
def listStrat (d : List Char) : List Nat :=
  (splitPats listSeps d).filterMap (fun p => dayIdx (trim p))

/-- The fallback strategy of `parse_days`: collect every
`day_pattern` match found in `days_map`. -/
def scanStrat (d : List Char) : List Nat :=
  (findDays d).filterMap dayIdx

/-- The `days` accumulation of `parse_days` before the final
`sorted(list(set(...)))`, on already-normalised text: range branch if
any of `THRU`, `THROUGH`, `-` occurs anywhere; else list branch if
any of `&`, `,`, `AND` occurs anywhere; else the fallback scan. -/
def rawDays (d : List Char) : List Nat :=
  if rangeSeps.any (fun w => containsLit w d) then rangeStrat d
  else if listSeps.any (fun w => containsLit w d) then listStrat d
  else scanStrat d

/-- `ParkingRuleParser.parse_days`: normalise, accumulate day indices
by the selected strategy, then `sorted(list(set(days)))`. -/
def parse_days (s : List Char) : List Nat := dedupSort (rawDays (normTxt s))

/-! ## Time machinery (`time_pattern`, `parse_time_range`,
`_parse_time_match`, and the inline time-range search of
`parse_rule`) -/

/-- Drop the `\s*` of a pattern (greedy; safe here because every
continuation after a `\s*` in the modelled patterns starts with a
non-space character). -/
def dropWs (t : List Char) : List Char := t.dropWhile isWs

/-- Spaces consumed by a greedy `\s*`. -/
def takeWs (t : List Char) : List Char := t.takeWhile isWs

/-- ASCII digit test, as `\d` on the inputs in scope. -/
def isDig (c : Char) : Bool := c.isDigit

/-- Digit value of an ASCII digit character. -/
def dval (c : Char) : Nat := c.toNat - 48

/-- Match the alternation `AM|PM` at the start of `t`; the Bool is
true for PM. -/
def ampmAt (t : List Char) : Option (Bool × List Char) :=
  match litAt "AM".data t with
  | some r => some (false, r)
  | none =>
    match litAt "PM".data t with
    | some r => some (true, r)
    | none => none

/-- Match `(\d{2})?\s*(AM|PM)` at the start of `t`, greedily trying
the minute group first (regex backtracking order). -/
def mmTail (t : List Char) : Option (Option Nat × Bool × List Char) :=
  (match t with
   | a :: b :: r =>
     if isDig a && isDig b then
       match ampmAt (dropWs r) with
       | some (pm, rest) => some (some (10 * dval a + dval b), pm, rest)
       | none => none
     else none
   | _ => none).orElse (fun _ =>
    match ampmAt (dropWs t) with
    | some (pm, rest) => some (none, pm, rest)
    | none => none)

/-- Match `:?(\d{2})?\s*(AM|PM)` at the start of `t` (colon consumed
greedily first). -/
def colonTail (t : List Char) : Option (Option Nat × Bool × List Char) :=
  (match t with
   | ':' :: r => mmTail r
   | _ => none).orElse (fun _ => mmTail t)

/-- Match `time_pattern = (\d{1,2}):?(\d{2})?\s*(AM|PM)` at the start
of `t`, returning (hour digits, optional minute digits, is-PM) and
the remainder; the hour group greedily takes two digits, backtracking
to one. -/
def timeTokAt (t : List Char) : Option ((Nat × Option Nat × Bool) × List Char) :=
  match t with
  | [] => none
  | a :: rest =>
    if isDig a then
      match rest with
      | b :: r2 =>
        if isDig b then
          match colonTail r2 with
          | some (mm, pm, rem) => some ((10 * dval a + dval b, mm, pm), rem)
          | none =>
            match colonTail rest with
            | some (mm, pm, rem) => some ((dval a, mm, pm), rem)
            | none => none
        else
          match colonTail rest with
          | some (mm, pm, rem) => some ((dval a, mm, pm), rem)
          | none => none
      | [] => none
    else none

/-- Worker for `time_pattern.findall`: leftmost non-overlapping
matches, resuming after each match. -/
def timeFindGo : Nat → List Char → List (Nat × Option Nat × Bool)
  | 0, _ => []
  | _, [] => []
  | fuel + 1, t@(_ :: rest) =>
    match timeTokAt t with
    | some (g, rem) => g :: timeFindGo fuel rem
    | none => timeFindGo fuel rest

/-- `time_pattern.findall(t)`. -/
def timeFindAll (t : List Char) : List (Nat × Option Nat × Bool) :=
  timeFindGo (t.length + 1) t

/-- Python `datetime.time(hour, minute)`: raises unless
`hour < 24 ∧ minute < 60`; a raise is modelled as `none` (the caller
`parse_time_range` catches every exception). The value is minutes
after midnight, order-isomorphic to `time` comparison. -/
def mkTime (h m : Nat) : Option Nat :=
  if h < 24 ∧ m < 60 then some (h * 60 + m) else none

/-- `_parse_time_match`: 12-hour to 24-hour conversion (`PM` and
hour ≠ 12 adds 12; `AM` and hour = 12 becomes 0) followed by the
`time` constructor. -/
def convTok (g : Nat × Option Nat × Bool) : Option Nat :=
  let h := g.1
  let m := (g.2.1).getD 0
  let h24 := if g.2.2 then (if h = 12 then 12 else h + 12)
             else (if h = 12 then 0 else h)
  mkTime h24 m

/-- `parse_time_range`: normalise, find all `time_pattern` matches,
and when at least two exist convert the first two; any exception from
the `time` constructor is caught and yields `none`. -/
def parse_time_range (s : List Char) : Option (Nat × Nat) :=
  let t := normTxt s
  match timeFindAll t with
  | a :: b :: _ =>
    match convTok a, convTok b with
    | some x, some y => some (x, y)
    | _, _ => none
  | _ => none

/-- Match `[AP]M` at the start of `t`, returning the consumed
characters and the rest. -/
def clsAPM (t : List Char) : Option (List Char × List Char) :=
  match t with
  | c :: 'M' :: r => if c = 'A' || c = 'P' then some ([c, 'M'], r) else none
  | _ => none

/-- Shared tail `\s*[AP]M` of the outer time token, with `pre` the
characters consumed so far. -/
def outTailAPM (pre t : List Char) : Option (List Char × List Char) :=
  match clsAPM (dropWs t) with
  | some (m, rest) => some (pre ++ takeWs t ++ m, rest)
  | none => none

/-- Match `\d{0,2}\s*[AP]M` at the start of `t` (greedy digit count
with backtracking). -/
def outD2 (pre t : List Char) : Option (List Char × List Char) :=
  (match t with
   | a :: b :: r =>
     if isDig a && isDig b then outTailAPM (pre ++ [a, b]) r else none
   | _ => none).orElse (fun _ =>
  (match t with
   | a :: r => if isDig a then outTailAPM (pre ++ [a]) r else none
   | _ => none).orElse (fun _ => outTailAPM pre t))

/-- Match `:?\d{0,2}\s*[AP]M` at the start of `t`. -/
def outColon (pre t : List Char) : Option (List Char × List Char) :=
  (match t with
   | ':' :: r => outD2 (pre ++ [':']) r
   | _ => none).orElse (fun _ => outD2 pre t)

/-- Match the outer time token `\d{1,2}:?\d{0,2}\s*[AP]M` at the
start of `t`, returning the consumed characters and the rest. -/
def outTokAt (t : List Char) : Option (List Char × List Char) :=
  match t with
  | [] => none
  | a :: rest =>
    if isDig a then
      match rest with
      | b :: r2 =>
        if isDig b then
          (outColon [a, b] r2).orElse (fun _ => outColon [a] rest)
        else outColon [a] rest
      | [] => outColon [a] []
    else none

/-- Match the whole inline pattern of `parse_rule`,
`(\d{1,2}:?\d{0,2}\s*[AP]M)\s*[-TO]+\s*(\d{1,2}:?\d{0,2}\s*[AP]M)`,
at the start of `t`, returning `match.group()` (the matched
substring). The `[-TO]+` run is taken greedily; its character class
is disjoint from whitespace and digits, so no backtracking across it
can change success. -/
def rangeAt (t : List Char) : Option (List Char) :=
  match outTokAt t with
  | none => none
  | some (m1, r1) =>
    let r2 := dropWs r1
    let sep := r2.takeWhile (fun c => c = '-' || c = 'T' || c = 'O')
    if sep.isEmpty then none
    else
      let r3 := r2.dropWhile (fun c => c = '-' || c = 'T' || c = 'O')
      match outTokAt (dropWs r3) with
      | some (m2, _) => some (m1 ++ takeWs r1 ++ sep ++ takeWs r3 ++ m2)
      | none => none

/-- Worker for `re.search` of the inline time-range pattern: try each
start position left to right. -/
def searchRangeGo : Nat → List Char → Option (List Char)
  | 0, _ => none
  | _, [] => none
  | fuel + 1, t@(_ :: rest) =>
    match rangeAt t with
    | some g => some g
    | none => searchRangeGo fuel rest

/-- The time-range extraction step of `parse_rule`:
`re.search(time_pattern, text)` and, on a match,
`parse_time_range(match.group())`. -/
def extractTimeRange (t : List Char) : Option (Nat × Nat) :=
  match searchRangeGo (t.length + 1) t with
  | some g => parse_time_range g
  | none => none

/-! ## Rule classification and `parse_rule` -/

/-- The closed restriction-type enumeration (the `type` strings of
the source: `NO_STOPPING`, `NO_STANDING`, `NO_PARKING`,
`STREET_CLEANING`, `METERED`, `UNKNOWN`). -/
inductive RuleType where
  | noStopping
  | noStanding
  | noParking
  | streetCleaning
  | metered
  | unknown
deriving DecidableEq, Repr

/-- Match `\d+\s*HOUR\s*PARKING` anchored at the start of `t`: a
non-empty maximal digit run, then spaces, `HOUR`, spaces, `PARKING`.
The greedy runs need no backtracking: shrinking the digit run leaves
a digit where `\s*HOUR` must match, and the space runs are followed
by non-space literals. -/
def hourParkAt (t : List Char) : Bool :=
  match t with
  | c :: _ =>
    isDig c &&
    (match litAt "HOUR".data (dropWs (t.dropWhile isDig)) with
     | some r => (litAt "PARKING".data (dropWs r)).isSome
     | none => false)
  | [] => false

/-- Worker for `re.search(r'\d+\s*HOUR\s*PARKING', t)` viewed as a
Boolean: scan start positions left to right. -/
def hourParkGo : Nat → List Char → Bool
  | 0, _ => false
  | _, [] => false
  | fuel + 1, t@(_ :: rest) => hourParkAt t || hourParkGo fuel rest

/-- Whether `\d+\s*HOUR\s*PARKING` matches anywhere in `t`. -/
def hourParkHit (t : List Char) : Bool := hourParkGo (t.length + 1) t

/-- Worker for `re.search(r'(\d+)\s*HOUR', t)`: at the leftmost
position where a digit run followed by spaces and `HOUR` matches,
return the numeric value of the digit group. -/
def hourCapGo : Nat → List Char → Option Nat
  | 0, _ => none
  | _, [] => none
  | fuel + 1, t@(c :: rest) =>
    if isDig c && (litAt "HOUR".data (dropWs (t.dropWhile isDig))).isSome then
      some (natOfDigits (t.takeWhile isDig))
    else hourCapGo fuel rest

/-- The `(\d+)\s*HOUR` capture used for `hours_limit`. -/
def hourCapture (t : List Char) : Option Nat := hourCapGo (t.length + 1) t

/-- The type-classification cascade of `parse_rule`, on normalised
text: an `if/elif` chain in the source's fixed order. -/
def classify (t : List Char) : RuleType :=
  if containsLit "NO STOPPING".data t then .noStopping
  else if containsLit "NO STANDING".data t then .noStanding
  else if containsLit "NO PARKING".data t then .noParking
  else if containsLit "STREET CLEANING".data t then .streetCleaning
  else if hourParkHit t then .metered
  else .unknown

/-- The parsed-rule dictionary of `parse_rule`. Absent keys of the
degenerate empty-input dictionary are represented by the default each
read site supplies (`days` and `exceptions` read via `get` as empty,
`time_range` and `hours_limit` as absent, `confidence` via
`get(_, 0.5)` as 1/2). -/
structure Rule where
  original_text : List Char
  rtype : RuleType
  days : List Nat
  time_range : Option (Nat × Nat)
  exceptions : List Nat
  hours_limit : Option Nat
  is_parsed : Bool
  confidence : ℚ
deriving DecidableEq, Repr

/-- The degenerate rule returned for an empty input string. -/
def emptyRule : Rule :=
  ⟨[], .unknown, [], none, [], none, false, 1/2⟩

/-- `ParkingRuleParser.parse_rule`: empty-input short-circuit;
normalisation; classification cascade (capturing `hours_limit` only
for `METERED`); inline time-range search; day extraction over the
whole text; `EXCEPT` handling via `text.split('EXCEPT')[1]` (the
segment between the first and second occurrence); confidence 0.9 for
a recognised type, else 0.5. -/
def parse_rule (s : List Char) : Rule :=
  if s = [] then emptyRule
  else
    let t := normTxt s
    let rt := classify t
    ⟨t, rt, parse_days t, extractTimeRange t,
     (if containsLit "EXCEPT".data t then
        parse_days ((splitPats ["EXCEPT".data] t).getD 1 [])
      else []),
     (if rt = .metered then hourCapture t else none),
     true,
     if rt = .unknown then 1/2 else 9/10⟩

/-! ## Availability evaluation
(`ParkingService.check_parking_availability`) -/

/-- Evaluator state: the running `allowed` flag, the current
`restriction_type`, and the collected `confidence_scores`. -/
structure EvalState where
  allowed : Bool
  restriction : Option RuleType
  confs : List ℚ
deriving DecidableEq, Repr

/-- The time-applicability test of the evaluator: a window that does
not cross midnight applies on the closed interval; an overnight
window applies outside the complementary gap. -/
def timeApplies (st en t : Nat) : Bool :=
  if st ≤ en then st ≤ t && t ≤ en else t ≥ st || t ≤ en

/-- The four restriction categories that forbid parking. -/
def isRestricting : RuleType → Bool
  | .noParking => true
  | .noStanding => true
  | .noStopping => true
  | .streetCleaning => true
  | _ => false

/-- One iteration of the evaluator's rule loop at weekday `day` and
time-of-day `t`: record confidence; skip when `days` is non-empty and
excludes `day`; skip when `day` is in `exceptions`; skip when there
is no time window; otherwise, when the window applies, a restricting
type clears `allowed` and sets `restriction_type`, and `METERED` sets
`restriction_type` only. -/
def checkStep (day t : Nat) (s : EvalState) (r : Rule) : EvalState :=
  let s' : EvalState := ⟨s.allowed, s.restriction, s.confs ++ [r.confidence]⟩
  if r.days ≠ [] ∧ day ∉ r.days then s'
  else if day ∈ r.exceptions then s'
  else
    match r.time_range with
    | none => s'
    | some (st, en) =>
      if timeApplies st en t then
        if isRestricting r.rtype then ⟨false, some r.rtype, s'.confs⟩
        else if r.rtype = .metered then ⟨s'.allowed, some .metered, s'.confs⟩
        else s'
      else s'

/-- The evaluator's loop over an (already parsed) rule list, from the
initial state `allowed = true`, no restriction, no confidences. -/
def evalRules (rules : List Rule) (day t : Nat) : EvalState :=
  rules.foldl (checkStep day t) ⟨true, none, []⟩

/-- `check_parking_availability` on parsed rules: the final
`(allowed, restriction_type, average confidence)`, the average
defaulting to 1/2 for an empty list. -/
def check_parking_availability (rules : List Rule) (day t : Nat) :
    Bool × Option RuleType × ℚ :=
  let s := evalRules rules day t
  (s.allowed, s.restriction,
   if s.confs = [] then 1/2 else s.confs.sum / s.confs.length)

/-- Whether a rule passes every skip test and its time window applies
at weekday `day`, time-of-day `t` (the condition under which the loop
body can change `allowed` or `restriction_type`). -/
def applies (day t : Nat) (r : Rule) : Bool :=
  !(decide (r.days ≠ [] ∧ day ∉ r.days)) && !(decide (day ∈ r.exceptions)) &&
  (match r.time_range with
   | none => false
   | some (st, en) => timeApplies st en t)

/-- The classification cascade as the spec words it: an ordered list
of (predicate, category) pairs in the fixed priority order
NO STOPPING, NO STANDING, NO PARKING, STREET CLEANING, then the
`<digits> HOUR PARKING` pattern. -/
def cascadeSpec : List ((List Char → Bool) × RuleType) :=
  [(containsLit "NO STOPPING".data, .noStopping),
   (containsLit "NO STANDING".data, .noStanding),
   (containsLit "NO PARKING".data, .noParking),
   (containsLit "STREET CLEANING".data, .streetCleaning),
   (hourParkHit, .metered)]

/-- Classification as the spec words it, for comparison with the
source's `classify`: the first matching entry of the cascade wins,
defaulting to Unknown. -/
def firstMatchTypeSpec (t : List Char) : RuleType :=
  match cascadeSpec.find? (fun pc => pc.1 t) with
  | some pc => pc.2
  | none => .unknown

/-- Well-formedness of a parsed rule (the spec's testable
properties): confidence is 0.9 exactly for a recognised type and 0.5
otherwise, and `days` and `exceptions` are strictly ascending with
every element a weekday index. -/
def wellFormedRule (r : Rule) : Prop :=
  (r.confidence = if r.rtype = .unknown then (1 : ℚ)/2 else 9/10) ∧
  r.days.Pairwise (· < ·) ∧ (∀ d ∈ r.days, d ≤ 6) ∧
  r.exceptions.Pairwise (· < ·) ∧ (∀ d ∈ r.exceptions, d ≤ 6)

/-- The initial evaluator state. -/
def initState : EvalState := ⟨true, none, []⟩

/-- Fixture: a metered rule applicable on any day, 8AM-6PM. -/
def mRule : Rule := ⟨[], .metered, [], some (480, 1080), [], some 2, true, 9/10⟩

/-- Fixture: a Monday-only NO PARKING rule, 8AM-6PM. -/
def npRule : Rule := ⟨[], .noParking, [0], some (480, 1080), [], none, true, 9/10⟩

/-- Fixture: the Monday-only NO PARKING rule with Monday also listed
as an exception. -/
def npRuleExc : Rule := ⟨[], .noParking, [0], some (480, 1080), [0], none, true, 9/10⟩

/-- Fixture: a NO STANDING rule with no time window. -/
def nsNoTime : Rule := ⟨[], .noStanding, [], none, [], none, true, 9/10⟩

/-! ## Helper lemmas -/

theorem mem_insSorted {x y : Nat} {l : List Nat} :
    y ∈ insSorted x l ↔ y = x ∨ y ∈ l := by
  induction l with
  | nil => simp [insSorted]
  | cons z zs ih =>
    unfold insSorted
    split_ifs with h1 h2
    · simp
    · subst h2
      simp
    · simp [ih]
      tauto

theorem pairwise_insSorted {x : Nat} {l : List Nat}
    (h : l.Pairwise (· < ·)) : (insSorted x l).Pairwise (· < ·) := by
  induction l with
  | nil => simp [insSorted]
  | cons z zs ih =>
    rcases List.pairwise_cons.mp h with ⟨hz, hzs⟩
    unfold insSorted
    split_ifs with h1 h2
    · exact List.pairwise_cons.mpr
        ⟨fun b hb => by
          rcases List.mem_cons.mp hb with rfl | hb
          · exact h1
          · exact h1.trans (hz b hb), h⟩
    · exact h
    · refine List.pairwise_cons.mpr ⟨fun b hb => ?_, ih hzs⟩
      rcases mem_insSorted.mp hb with rfl | hb
      · omega
      · exact hz b hb

theorem mem_dedupSort {y : Nat} {l : List Nat} :
    y ∈ dedupSort l ↔ y ∈ l := by
  induction l with
  | nil => simp [dedupSort]
  | cons a l ih =>
    show y ∈ insSorted a (dedupSort l) ↔ _
    rw [mem_insSorted, ih]
    simp

theorem pairwise_dedupSort {l : List Nat} :
    (dedupSort l).Pairwise (· < ·) := by
  induction l with
  | nil => simp [dedupSort]
  | cons a l ih => exact pairwise_insSorted ih

theorem mem_rangeClosed {i j y : Nat} :
    y ∈ rangeClosed i j ↔ i ≤ y ∧ y < j + 1 := by
  simp only [rangeClosed, List.mem_map, List.mem_range]
  constructor
  · rintro ⟨m, hm, rfl⟩
    omega
  · intro h
    exact ⟨y - i, by omega, by omega⟩

theorem lookup_le_six {l : List (List Char × Nat)}
    (hb : ∀ p ∈ l, p.2 ≤ 6) :
    ∀ {k : List Char} {i : Nat}, l.lookup k = some i → i ≤ 6 := by
  induction l with
  | nil => intro k i h; simp [List.lookup] at h
  | cons p ps ih =>
    intro k i h
    obtain ⟨a, b⟩ := p
    rw [List.lookup] at h
    split at h
    · cases h
      exact hb (a, i) (List.mem_cons_self _ _)
    · exact ih (fun q hq => hb q (List.mem_cons_of_mem _ hq)) h

theorem dayIdx_le {k : List Char} {i : Nat} (h : dayIdx k = some i) :
    i ≤ 6 :=
  lookup_le_six (by simp [daysMap]) h

theorem rangeStrat_le {t : List Char} {d : Nat}
    (h : d ∈ rangeStrat t) : d ≤ 6 := by
  unfold rangeStrat at h
  split at h
  · split at h
    · rename_i i j hi hj
      have h6i := dayIdx_le hi
      have h6j := dayIdx_le hj
      split at h
      · have := mem_rangeClosed.mp h
        omega
      · rcases List.mem_append.mp h with hm | hm
        · have := mem_rangeClosed.mp hm
          omega
        · have := mem_rangeClosed.mp hm
          omega
    · simp at h
  · simp at h

theorem listStrat_le {t : List Char} {d : Nat}
    (h : d ∈ listStrat t) : d ≤ 6 := by
  unfold listStrat at h
  rcases List.mem_filterMap.mp h with ⟨p, _, hp⟩
  exact dayIdx_le hp

theorem scanStrat_le {t : List Char} {d : Nat}
    (h : d ∈ scanStrat t) : d ≤ 6 := by
  unfold scanStrat at h
  rcases List.mem_filterMap.mp h with ⟨p, _, hp⟩
  exact dayIdx_le hp

theorem rawDays_le {t : List Char} {d : Nat}
    (h : d ∈ rawDays t) : d ≤ 6 := by
  unfold rawDays at h
  split_ifs at h
  · exact rangeStrat_le h
  · exact listStrat_le h
  · exact scanStrat_le h

theorem parse_days_le {s : List Char} {d : Nat}
    (h : d ∈ parse_days s) : d ≤ 6 :=
  rawDays_le (mem_dedupSort.mp h)

theorem parse_days_sorted (s : List Char) :
    (parse_days s).Pairwise (· < ·) :=
  pairwise_dedupSort

/-- Case characterisation of the loop body: when every skip test
passes and the time window applies, a restricting rule clears
`allowed` and sets the restriction, a metered rule sets the
restriction only; in every other case only the confidence is
recorded. -/
theorem checkStep_cases (day t : Nat) (s : EvalState) (r : Rule) :
    checkStep day t s r =
      if applies day t r = true then
        (if isRestricting r.rtype = true then
           ⟨false, some r.rtype, s.confs ++ [r.confidence]⟩
         else if r.rtype = .metered then
           ⟨s.allowed, some .metered, s.confs ++ [r.confidence]⟩
         else ⟨s.allowed, s.restriction, s.confs ++ [r.confidence]⟩)
      else ⟨s.allowed, s.restriction, s.confs ++ [r.confidence]⟩ := by
  unfold checkStep applies
  by_cases h1 : r.days ≠ [] ∧ day ∉ r.days
  · simp [h1]
  · by_cases h2 : day ∈ r.exceptions
    · simp [h1, h2]
    · cases htr : r.time_range with
      | none => simp [h1, h2, htr]
      | some p =>
        obtain ⟨st, en⟩ := p
        by_cases h3 : timeApplies st en t = true
        · by_cases h4 : isRestricting r.rtype = true
          · simp [h1, h2, htr, h3, h4]
          · by_cases h5 : r.rtype = .metered
            · simp [h1, h2, htr, h3, h4, h5]
            · simp [h1, h2, htr, h3, h4, h5]
        · simp [h1, h2, htr, h3, Bool.not_eq_true _ ▸ h3]

theorem checkStep_confs (day t : Nat) (s : EvalState) (r : Rule) :
    (checkStep day t s r).confs = s.confs ++ [r.confidence] := by
  rw [checkStep_cases]
  split_ifs <;> rfl

theorem checkStep_allowed_mono {day t : Nat} {s : EvalState} {r : Rule}
    (h : (checkStep day t s r).allowed = true) : s.allowed = true := by
  rw [checkStep_cases] at h
  split_ifs at h <;> simp_all

theorem checkStep_proj {day t : Nat} {r : Rule} {s s' : EvalState}
    (h1 : s.allowed = s'.allowed) (h2 : s.restriction = s'.restriction) :
    (checkStep day t s r).allowed = (checkStep day t s' r).allowed ∧
    (checkStep day t s r).restriction = (checkStep day t s' r).restriction := by
  rw [checkStep_cases, checkStep_cases]
  split_ifs <;> simp [h1, h2]

theorem checkStep_restricting {day t : Nat} {r : Rule} (s : EvalState)
    (ha : applies day t r = true) (hr : isRestricting r.rtype = true) :
    checkStep day t s r = ⟨false, some r.rtype, s.confs ++ [r.confidence]⟩ := by
  rw [checkStep_cases, if_pos ha, if_pos hr]

theorem checkStep_metered {day t : Nat} {r : Rule} (s : EvalState)
    (ha : applies day t r = true) (hm : r.rtype = .metered) :
    checkStep day t s r = ⟨s.allowed, some .metered, s.confs ++ [r.confidence]⟩ := by
  rw [checkStep_cases, if_pos ha, if_neg (by simp [hm, isRestricting]), if_pos hm]

theorem checkStep_noeffect {day t : Nat} {r : Rule} (s : EvalState)
    (h : ¬(applies day t r = true ∧
           (isRestricting r.rtype || decide (r.rtype = RuleType.metered)) = true)) :
    checkStep day t s r = ⟨s.allowed, s.restriction, s.confs ++ [r.confidence]⟩ := by
  rw [checkStep_cases]
  split_ifs with ha hr hm
  · exact absurd ⟨ha, by simp [hr]⟩ h
  · exact absurd ⟨ha, by simp [hm]⟩ h
  · rfl
  · rfl

theorem applies_false_of_no_time {day t : Nat} {r : Rule}
    (h : r.time_range = none) : applies day t r = false := by
  simp [applies, h]

theorem applies_false_of_exception {day t : Nat} {r : Rule}
    (h : day ∈ r.exceptions) : applies day t r = false := by
  cases htr : r.time_range with
  | none => simp [applies, htr]
  | some p => obtain ⟨st, en⟩ := p; simp [applies, htr, h]

theorem applies_false_of_dayskip {day t : Nat} {r : Rule}
    (h1 : r.days ≠ []) (h2 : day ∉ r.days) : applies day t r = false := by
  cases htr : r.time_range with
  | none => simp [applies, htr]
  | some p => obtain ⟨st, en⟩ := p; simp [applies, htr, h1, h2]

theorem applies_true_iff {day t : Nat} {r : Rule} :
    applies day t r = true ↔
      (r.days = [] ∨ day ∈ r.days) ∧ day ∉ r.exceptions ∧
      ∃ st en, r.time_range = some (st, en) ∧ timeApplies st en t = true := by
  cases htr : r.time_range with
  | none => simp [applies, htr]
  | some p =>
    obtain ⟨st, en⟩ := p
    simp [applies, htr]
    aesop

theorem evalFold_confs (day t : Nat) (l : List Rule) :
    ∀ s : EvalState, (List.foldl (checkStep day t) s l).confs =
      s.confs ++ l.map Rule.confidence := by
  induction l with
  | nil => intro s; simp
  | cons r l ih =>
    intro s
    rw [List.foldl_cons, ih, checkStep_confs]
    simp

theorem evalFold_allowed_mono (day t : Nat) (l : List Rule) :
    ∀ s : EvalState, (List.foldl (checkStep day t) s l).allowed = true →
      s.allowed = true := by
  induction l with
  | nil => intro s h; exact h
  | cons r l ih => intro s h; exact checkStep_allowed_mono (ih _ h)

theorem evalFold_proj (day t : Nat) (l : List Rule) :
    ∀ s s' : EvalState, s.allowed = s'.allowed → s.restriction = s'.restriction →
      (List.foldl (checkStep day t) s l).allowed =
        (List.foldl (checkStep day t) s' l).allowed ∧
      (List.foldl (checkStep day t) s l).restriction =
        (List.foldl (checkStep day t) s' l).restriction := by
  induction l with
  | nil => intro s s' h1 h2; exact ⟨h1, h2⟩
  | cons r l ih =>
    intro s s' h1 h2
    rw [List.foldl_cons, List.foldl_cons]
    exact ih _ _ (checkStep_proj h1 h2).1 (checkStep_proj h1 h2).2

theorem evalFold_noeffect (day t : Nat) (l : List Rule)
    (hl : ∀ r' ∈ l, ¬(applies day t r' = true ∧
      (isRestricting r'.rtype || decide (r'.rtype = RuleType.metered)) = true)) :
    ∀ s : EvalState,
      (List.foldl (checkStep day t) s l).allowed = s.allowed ∧
      (List.foldl (checkStep day t) s l).restriction = s.restriction := by
  induction l with
  | nil => intro s; exact ⟨rfl, rfl⟩
  | cons r l ih =>
    intro s
    rw [List.foldl_cons,
        checkStep_noeffect s (hl r (List.mem_cons_self _ _))]
    exact ih (fun r' hr' => hl r' (List.mem_cons_of_mem _ hr')) _

/-! ## Claim theorems -/

/-- C1: for the input "NO PARKING 8AM-6PM MON THRU FRI" the code
returns restriction type NoParking, time range (08:00, 18:00) and
confidence 0.9 as the claim states, but `days = []`, not
[0,1,2,3,4]: the hyphen inside "8AM-6PM" makes the range split
produce three parts, so day resolution fails. This evaluation at the
claim's input exhibits the divergence (the repository's own test
asserts [0,1,2,3,4]). -/
theorem C1_parse_simple_sign_eval :
    parse_rule "NO PARKING 8AM-6PM MON THRU FRI".data =
      ⟨"NO PARKING 8AM-6PM MON THRU FRI".data, .noParking, [],
       some (8 * 60, 18 * 60), [], none, true, 9/10⟩ := rfl

/-- C2: strategy selection in day extraction tests raw substring
containment over the whole normalised text: any of THRU, THROUGH, or
a hyphen anywhere selects the range strategy alone; otherwise any of
the ampersand, the comma, or AND anywhere selects the list strategy
alone; a failing selected strategy
leaves the days empty and the fallback scan never runs. Witnessed
concretely: the hyphen of "8AM-6PM" hijacks the range strategy, the
AND inside STANDING hijacks the list strategy, and in both cases the
days are empty although the fallback scan would have found them. -/
theorem C2_day_strategy_selection :
    (∀ s : List Char,
        (rangeSeps.any fun w => containsLit w (normTxt s)) = true →
        parse_days s = dedupSort (rangeStrat (normTxt s))) ∧
    (∀ s : List Char,
        (rangeSeps.any fun w => containsLit w (normTxt s)) = false →
        (listSeps.any fun w => containsLit w (normTxt s)) = true →
        parse_days s = dedupSort (listStrat (normTxt s))) ∧
    (rangeSeps.any fun w =>
        containsLit w (normTxt "NO PARKING 8AM-6PM MON THRU FRI".data)) = true ∧
    parse_days "NO PARKING 8AM-6PM MON THRU FRI".data = [] ∧
    (listSeps.any fun w =>
        containsLit w (normTxt "NO STANDING MONDAY".data)) = true ∧
    parse_days "NO STANDING MONDAY".data = [] ∧
    dedupSort (scanStrat (normTxt "NO STANDING MONDAY".data)) = [0] := by
  refine ⟨?_, ?_, by decide, by decide, by decide, by decide, by decide⟩
  · intro s h
    unfold parse_days rawDays
    rw [if_pos h]
  · intro s h1 h2
    unfold parse_days rawDays
    rw [if_neg (by simp [h1]), if_pos h2]

theorem C2_day_strategy_selection_witness :
    parse_days "MON THRU FRI".data =
      dedupSort (rangeStrat (normTxt "MON THRU FRI".data)) ∧
    parse_days "TUE & THU".data =
      dedupSort (listStrat (normTxt "TUE & THU".data)) :=
  ⟨C2_day_strategy_selection.1 _ (by decide),
   C2_day_strategy_selection.2.1 _ (by decide) (by decide)⟩

/-- C3: a parsed time range is stored in parse order (start may
exceed end); evaluation with `start ≤ end` applies on the closed
interval and with `start > end` outside the complementary gap;
"10PM-2AM" extracts to (22:00, 02:00), applicable at 23:30 and
01:00, not at 12:00 (also shown through full evaluation of the
parsed rule). -/
theorem C3_overnight_time_window :
    (∀ st en t : Nat, st ≤ en →
        (timeApplies st en t = true ↔ st ≤ t ∧ t ≤ en)) ∧
    (∀ st en t : Nat, en < st →
        (timeApplies st en t = true ↔ st ≤ t ∨ t ≤ en)) ∧
    parse_time_range "10PM-2AM".data = some (22 * 60, 2 * 60) ∧
    extractTimeRange (normTxt "10PM-2AM".data) = some (22 * 60, 2 * 60) ∧
    timeApplies (22 * 60) (2 * 60) (23 * 60 + 30) = true ∧
    timeApplies (22 * 60) (2 * 60) 60 = true ∧
    timeApplies (22 * 60) (2 * 60) (12 * 60) = false ∧
    (evalRules [parse_rule "NO PARKING 10PM-2AM".data] 2 (23 * 60 + 30)).allowed
      = false ∧
    (evalRules [parse_rule "NO PARKING 10PM-2AM".data] 2 60).allowed = false ∧
    (evalRules [parse_rule "NO PARKING 10PM-2AM".data] 2 (12 * 60)).allowed
      = true := by
  refine ⟨?_, ?_, by decide, by decide, by decide, by decide, by decide,
          by decide, by decide, by decide⟩
  · intro st en t h
    unfold timeApplies
    rw [if_pos h]
    simp
  · intro st en t h
    unfold timeApplies
    rw [if_neg (by omega)]
    simp [ge_iff_le]

theorem C3_overnight_time_window_witness :
    (timeApplies 480 1080 840 = true ↔ 480 ≤ 840 ∧ 840 ≤ 1080) ∧
    (timeApplies 1320 120 60 = true ↔ 1320 ≤ 60 ∨ 60 ≤ 120) :=
  ⟨C3_overnight_time_window.1 480 1080 840 (by decide),
   C3_overnight_time_window.2.1 1320 120 60 (by decide)⟩

/-- C4: when the range strategy resolves a start index exceeding the
end index, the days are [start..6] ∪ [0..end]; in particular
"FRI THRU MON" yields exactly the set {4,5,6,0} (returned in
ascending order as [0,4,5,6]), not [] and not {0,4}. -/
theorem C4_day_range_wraparound :
    (∀ (s : List Char) (i j : Nat) (p0 p1 : List Char),
        (rangeSeps.any fun w => containsLit w (normTxt s)) = true →
        splitPats rangeSeps (normTxt s) = [p0, p1] →
        dayIdx (trim p0) = some i → dayIdx (trim p1) = some j → j < i →
        parse_days s = dedupSort (rangeClosed i 6 ++ rangeClosed 0 j) ∧
        ∀ d : Nat, d ∈ parse_days s ↔ ((i ≤ d ∧ d ≤ 6) ∨ d ≤ j)) ∧
    parse_days "FRI THRU MON".data = [0, 4, 5, 6] ∧
    (∀ d : Nat,
        d ∈ parse_days "FRI THRU MON".data ↔ ((4 ≤ d ∧ d ≤ 6) ∨ d = 0)) := by
  refine ⟨?_, by decide, ?_⟩
  · intro s i j p0 p1 hcond hsplit hi hj hij
    have hpd : parse_days s = dedupSort (rangeStrat (normTxt s)) := by
      unfold parse_days rawDays
      rw [if_pos hcond]
    have hrs : rangeStrat (normTxt s) = rangeClosed i 6 ++ rangeClosed 0 j := by
      unfold rangeStrat
      rw [hsplit]
      dsimp only
      rw [hi, hj]
      dsimp only
      rw [if_neg (by omega)]
    refine ⟨by rw [hpd, hrs], ?_⟩
    intro d
    rw [hpd, hrs, mem_dedupSort]
    have h6i := dayIdx_le hi
    simp only [List.mem_append, mem_rangeClosed]
    omega
  · intro d
    have h : parse_days "FRI THRU MON".data = [0, 4, 5, 6] := by decide
    rw [h]
    simp
    omega

theorem C4_day_range_wraparound_witness :
    parse_days "FRI THRU MON".data =
      dedupSort (rangeClosed 4 6 ++ rangeClosed 0 0) :=
  (C4_day_range_wraparound.1 "FRI THRU MON".data 4 0 "FRI ".data " MON".data
    (by decide) (by decide) (by decide) (by decide) (by decide)).1

/-- C5: for every non-empty input the restriction type equals the
first match of the fixed cascade NO STOPPING, NO STANDING,
NO PARKING, STREET CLEANING, `<digits> HOUR PARKING` (Metered, with
the digit group captured as hours_limit), defaulting to Unknown; the
earliest-listed category wins even when a later-listed category's
keyword appears earlier in the string (concretely, "NO PARKING
ANYTIME NO STOPPING" classifies as NoStopping, and "NO PARKING ...
STREET CLEANING" as NoParking). -/
theorem C5_classification_cascade :
    (∀ s : List Char, s ≠ [] →
        (parse_rule s).rtype = firstMatchTypeSpec (normTxt s)) ∧
    (∀ s : List Char, s ≠ [] → (parse_rule s).rtype = .metered →
        (parse_rule s).hours_limit = hourCapture (normTxt s)) ∧
    (parse_rule "NO PARKING ANYTIME NO STOPPING".data).rtype = .noStopping ∧
    (parse_rule "NO PARKING 11AM-12:30PM TUE & FRI STREET CLEANING".data).rtype
      = .noParking ∧
    (parse_rule "2 HOUR PARKING 9AM-7PM".data).rtype = .metered ∧
    (parse_rule "2 HOUR PARKING 9AM-7PM".data).hours_limit = some 2 ∧
    (parse_rule "XYZZY".data).rtype = .unknown := by
  refine ⟨?_, ?_, by decide, by decide, by decide, by decide, by decide⟩
  · intro s hs
    have hcl : (parse_rule s).rtype = classify (normTxt s) := by
      unfold parse_rule
      rw [if_neg hs]
    rw [hcl]
    unfold classify firstMatchTypeSpec cascadeSpec
    generalize normTxt s = t
    by_cases h1 : containsLit "NO STOPPING".data t
    · simp [List.find?, h1]
    · by_cases h2 : containsLit "NO STANDING".data t
      · simp [List.find?, h1, h2]
      · by_cases h3 : containsLit "NO PARKING".data t
        · simp [List.find?, h1, h2, h3]
        · by_cases h4 : containsLit "STREET CLEANING".data t
          · simp [List.find?, h1, h2, h3, h4]
          · by_cases h5 : hourParkHit t
            · simp [List.find?, h1, h2, h3, h4, h5]
            · simp [List.find?, h1, h2, h3, h4, h5]
  · intro s hs hm
    unfold parse_rule at hm ⊢
    rw [if_neg hs] at hm ⊢
    dsimp only at hm ⊢
    rw [if_pos hm]

theorem C5_classification_cascade_witness :
    (parse_rule "NO PARKING ANYTIME".data).rtype =
      firstMatchTypeSpec (normTxt "NO PARKING ANYTIME".data) ∧
    (parse_rule "1 HOUR PARKING".data).hours_limit =
      hourCapture (normTxt "1 HOUR PARKING".data) :=
  ⟨C5_classification_cascade.1 _ (by decide),
   C5_classification_cascade.2.1 _ (by decide) (by decide)⟩

/-- C6: a rule with no time range never takes effect: inserting it
anywhere in the rule list leaves the computed `allowed` and
`restriction_type` identical to evaluation without it, while its
confidence is still recorded into the aggregate list. -/
theorem C6_no_time_range_no_effect :
    ∀ (day t : Nat) (l1 l2 : List Rule) (r : Rule), r.time_range = none →
      (check_parking_availability (l1 ++ r :: l2) day t).1 =
        (check_parking_availability (l1 ++ l2) day t).1 ∧
      (check_parking_availability (l1 ++ r :: l2) day t).2.1 =
        (check_parking_availability (l1 ++ l2) day t).2.1 ∧
      (evalRules (l1 ++ r :: l2) day t).confs =
        l1.map Rule.confidence ++ r.confidence :: l2.map Rule.confidence := by
  intro day t l1 l2 r h
  have hstep : ∀ s : EvalState,
      checkStep day t s r = ⟨s.allowed, s.restriction, s.confs ++ [r.confidence]⟩ :=
    fun s => checkStep_noeffect s (by simp [applies_false_of_no_time h])
  have h1 : evalRules (l1 ++ r :: l2) day t =
      List.foldl (checkStep day t)
        (checkStep day t (List.foldl (checkStep day t) initState l1) r) l2 := by
    unfold evalRules initState
    rw [List.foldl_append, List.foldl_cons]
  have h2 : evalRules (l1 ++ l2) day t =
      List.foldl (checkStep day t) (List.foldl (checkStep day t) initState l1) l2 := by
    unfold evalRules initState
    rw [List.foldl_append]
  have hproj := evalFold_proj day t l2
    (checkStep day t (List.foldl (checkStep day t) initState l1) r)
    (List.foldl (checkStep day t) initState l1)
    (by rw [hstep]) (by rw [hstep])
  refine ⟨?_, ?_, ?_⟩
  · show (evalRules (l1 ++ r :: l2) day t).allowed =
        (evalRules (l1 ++ l2) day t).allowed
    rw [h1, h2]
    exact hproj.1
  · show (evalRules (l1 ++ r :: l2) day t).restriction =
        (evalRules (l1 ++ l2) day t).restriction
    rw [h1, h2]
    exact hproj.2
  · rw [h1, evalFold_confs, hstep, evalFold_confs]
    simp [initState]

theorem C6_no_time_range_no_effect_witness :
    (check_parking_availability ([npRule] ++ nsNoTime :: []) 0 840).1 =
      (check_parking_availability ([npRule] ++ []) 0 840).1 ∧
    (check_parking_availability ([npRule] ++ nsNoTime :: []) 0 840).2.1 =
      (check_parking_availability ([npRule] ++ []) 0 840).2.1 ∧
    (evalRules ([npRule] ++ nsNoTime :: []) 0 840).confs =
      [npRule].map Rule.confidence ++
        nsNoTime.confidence :: ([] : List Rule).map Rule.confidence :=
  C6_no_time_range_no_effect 0 840 [npRule] [] nsNoTime rfl

/-- C7: in one evaluation pass `allowed` only ever moves from true
to false, never back; an applicable metered rule sets the restriction
to Metered without modifying `allowed`; and the final restriction
type is that of the last applicable restricting-or-metered rule,
overwriting any earlier one. -/
theorem C7_allowed_monotone_last_wins :
    (∀ (day t : Nat) (s : EvalState) (l : List Rule),
        (List.foldl (checkStep day t) s l).allowed = true → s.allowed = true) ∧
    (∀ (day t : Nat) (s : EvalState) (r : Rule),
        applies day t r = true → r.rtype = .metered →
        (checkStep day t s r).allowed = s.allowed ∧
        (checkStep day t s r).restriction = some .metered) ∧
    (∀ (day t : Nat) (l1 l2 : List Rule) (r : Rule),
        applies day t r = true →
        (isRestricting r.rtype || decide (r.rtype = RuleType.metered)) = true →
        (∀ r' ∈ l2, ¬(applies day t r' = true ∧
          (isRestricting r'.rtype || decide (r'.rtype = RuleType.metered)) = true)) →
        (evalRules (l1 ++ r :: l2) day t).restriction = some r.rtype) := by
  refine ⟨?_, ?_, ?_⟩
  · intro day t s l h
    exact evalFold_allowed_mono day t l s h
  · intro day t s r ha hm
    rw [checkStep_metered s ha hm]
    exact ⟨rfl, rfl⟩
  · intro day t l1 l2 r ha hcat hl2
    unfold evalRules
    rw [List.foldl_append, List.foldl_cons]
    have hres : (checkStep day t
        (List.foldl (checkStep day t) ⟨true, none, []⟩ l1) r).restriction
        = some r.rtype := by
      have hcat' : isRestricting r.rtype = true ∨ r.rtype = RuleType.metered := by
        simpa using hcat
      rcases hcat' with hr | hm'
      · rw [checkStep_restricting _ ha hr]
      · rw [checkStep_metered _ ha hm', hm']
    rw [(evalFold_noeffect day t l2 hl2 _).2, hres]

theorem C7_allowed_monotone_last_wins_witness :
    ((List.foldl (checkStep 0 840) initState []).allowed = true →
      initState.allowed = true) ∧
    ((checkStep 0 840 initState mRule).allowed = initState.allowed ∧
      (checkStep 0 840 initState mRule).restriction = some .metered) ∧
    (evalRules ([npRule] ++ mRule :: []) 0 840).restriction = some mRule.rtype :=
  ⟨C7_allowed_monotone_last_wins.1 0 840 initState [],
   C7_allowed_monotone_last_wins.2.1 0 840 initState mRule (by decide) rfl,
   C7_allowed_monotone_last_wins.2.2 0 840 [npRule] [] mRule (by decide)
     (by decide) (by intro r' hr'; simp at hr')⟩

/-- C8: a rule is skipped on day grounds iff its days set is
non-empty and excludes the query weekday (an empty days set never by
itself causes a skip: such a rule still takes effect when its window
applies), and a rule whose exceptions contain the weekday is skipped
even when that weekday is also in its days (shown concretely with a
Monday rule whose exception is Monday). -/
theorem C8_day_gating_and_exceptions :
    (∀ (day t : Nat) (s : EvalState) (r : Rule), day ∈ r.exceptions →
        checkStep day t s r =
          ⟨s.allowed, s.restriction, s.confs ++ [r.confidence]⟩) ∧
    (∀ (day t : Nat) (s : EvalState) (r : Rule), r.days ≠ [] → day ∉ r.days →
        checkStep day t s r =
          ⟨s.allowed, s.restriction, s.confs ++ [r.confidence]⟩) ∧
    (∀ (day t st en : Nat) (s : EvalState) (r : Rule),
        (r.days = [] ∨ day ∈ r.days) → day ∉ r.exceptions →
        r.time_range = some (st, en) → timeApplies st en t = true →
        isRestricting r.rtype = true →
        (checkStep day t s r).allowed = false ∧
        (checkStep day t s r).restriction = some r.rtype) ∧
    checkStep 0 840 initState npRuleExc = ⟨true, none, [9/10]⟩ ∧
    (checkStep 0 840 initState npRule).allowed = false := by
  refine ⟨?_, ?_, ?_, rfl, by decide⟩
  · intro day t s r h
    exact checkStep_noeffect s (by simp [applies_false_of_exception h])
  · intro day t s r h1 h2
    exact checkStep_noeffect s (by simp [applies_false_of_dayskip h1 h2])
  · intro day t st en s r hd he htr hta hr
    have ha : applies day t r = true :=
      applies_true_iff.mpr ⟨hd, he, st, en, htr, hta⟩
    rw [checkStep_restricting s ha hr]
    exact ⟨rfl, rfl⟩

theorem C8_day_gating_and_exceptions_witness :
    checkStep 0 840 initState npRuleExc =
      ⟨initState.allowed, initState.restriction,
       initState.confs ++ [npRuleExc.confidence]⟩ ∧
    ((checkStep 0 840 initState npRule).allowed = false ∧
      (checkStep 0 840 initState npRule).restriction = some npRule.rtype) :=
  ⟨C8_day_gating_and_exceptions.1 0 840 initState npRuleExc (by decide),
   C8_day_gating_and_exceptions.2.2.1 0 840 480 1080 initState npRule
     (by decide) (by decide) rfl (by decide) (by decide)⟩

/-- C9: parsing is total (every input, as a value of the embedding's
total function, yields a well-formed rule: confidence is 0.9 exactly
for a recognised type and 0.5 otherwise, and days and exceptions are
strictly ascending weekday indices), and a pure-noise input degrades
to Unknown with confidence 0.5, empty days, no time range. -/
theorem C9_parse_total_wellformed :
    (∀ s : List Char, wellFormedRule (parse_rule s)) ∧
    parse_rule "LOREM IPSUM".data =
      ⟨"LOREM IPSUM".data, .unknown, [], none, [], none, true, 1/2⟩ := by
  refine ⟨?_, rfl⟩
  intro s
  by_cases hs : s = []
  · subst hs
    exact ⟨rfl, by simp [parse_rule, emptyRule], by simp [parse_rule, emptyRule],
           by simp [parse_rule, emptyRule], by simp [parse_rule, emptyRule]⟩
  · unfold wellFormedRule parse_rule
    rw [if_neg hs]
    dsimp only
    refine ⟨rfl, parse_days_sorted _, fun d hd => parse_days_le hd, ?_, ?_⟩
    · split_ifs
      · exact parse_days_sorted _
      · simp
    · split_ifs
      · exact fun d hd => parse_days_le hd
      · simp

theorem C9_parse_total_wellformed_witness :
    wellFormedRule (parse_rule "MON THRU FRI".data) ∧ (0 : Nat) ≤ 6 :=
  ⟨C9_parse_total_wellformed.1 _,
   (C9_parse_total_wellformed.1 "MON THRU FRI".data).2.2.1 0 (by decide)⟩

/-- C10: `is_parsed` is false only for an empty input string (a
fortiori only for an empty-or-blank one), and in that case every
other field takes its default or empty value: Unknown type, empty
days and exceptions, no time range, no hours limit, confidence
0.5. -/
theorem C10_blank_input_unparsed :
    (∀ s : List Char, (parse_rule s).is_parsed = false →
        s = [] ∧ parse_rule s = emptyRule) ∧
    parse_rule [] = emptyRule ∧
    emptyRule.rtype = .unknown ∧ emptyRule.days = [] ∧
    emptyRule.time_range = none ∧ emptyRule.exceptions = [] ∧
    emptyRule.hours_limit = none ∧ emptyRule.is_parsed = false ∧
    emptyRule.confidence = 1/2 := by
  refine ⟨?_, rfl, rfl, rfl, rfl, rfl, rfl, rfl, rfl⟩
  intro s h
  by_cases hs : s = []
  · subst hs
    exact ⟨rfl, rfl⟩
  · exfalso
    unfold parse_rule at h
    rw [if_neg hs] at h
    simp at h

theorem C10_blank_input_unparsed_witness :
    ([] : List Char) = [] ∧ parse_rule [] = emptyRule :=
  C10_blank_input_unparsed.1 [] rfl

